import Mathlib

/-!
# Verification of the pulse-sequence engine of `nqrduck-spectrometer`

Shallow embedding of `src/nqrduck_spectrometer/pulsesequence.py`,
`src/nqrduck_spectrometer/pulseparameters.py` and the `PulseParameter`
base class of `src/nqrduck_spectrometer/base_spectrometer_model.py`.

Modelling conventions:

* Python `float` and `decimal.Decimal` values are modelled by `ℚ`.
  The engine performs no lossy float arithmetic on the paths verified
  here (durations, resolutions, option values and parameter values are
  stored and round-tripped unchanged); decimal-to-binary rounding of
  literals is outside the model and no claim exercises it.
* Exceptions are modelled by `Except String`: a Python function that can
  raise returns `Except String α`, and `.error` means the exception
  propagates with no mutation observable by the caller (raising in
  CPython aborts the statement before any assignment commits).
* `sympy` expressions are modelled by the inductive `SymExpr`.  The
  serialization detour through `str(expr)` / `sympify(text)` is modelled
  as the identity on `SymExpr`: spec §6 treats the symbolic backend as an
  opaque capability with `parse(print(e)) = e` for the expressions the
  engine produces.
* Transcendental values produced by the numeric backend (`numpy` /
  `sympy.lambdify`) are represented by fixed computable stand-ins
  (`backendSin`, …).  No verified property depends on these values; the
  claims about `evaluate` concern the sample count and the
  constant-expression branch only.
* `OrderedDict` is modelled by an association list with the
  insert-or-update-in-place semantics of dict assignment (`odInsert`).
-/

/-- Symbolic expressions over rationals with named variables: the fragment of
`sympy` expressions constructed by the four built-in shapes and by user
expressions made of arithmetic, `sin` and `exp`. -/
inductive SymExpr where
  | num (q : ℚ)
  | var (s : String)
  | add (a b : SymExpr)
  | sub (a b : SymExpr)
  | mul (a b : SymExpr)
  | div (a b : SymExpr)
  | pow (a b : SymExpr)
  | neg (a : SymExpr)
  | sin (a : SymExpr)
  | exp (a : SymExpr)
deriving DecidableEq, Repr

/-- The free symbols of an expression (with multiplicity; only membership is
ever used).  Models `sympy`'s free-symbol set. -/
def SymExpr.freeVars : SymExpr → List String
  | .num _ => []
  | .var s => [s]
  | .add a b => a.freeVars ++ b.freeVars
  | .sub a b => a.freeVars ++ b.freeVars
  | .mul a b => a.freeVars ++ b.freeVars
  | .div a b => a.freeVars ++ b.freeVars
  | .pow a b => a.freeVars ++ b.freeVars
  | .neg a => a.freeVars
  | .sin a => a.freeVars
  | .exp a => a.freeVars

/-- First-match lookup in an association list.  All association lists built in
this file have pairwise-distinct keys (they model Python dicts), so the first
match is the only match. -/
def lookupKey {α : Type} (l : List (String × α)) (k : String) : Option α :=
  match l with
  | [] => none
  | (k2, v) :: rest => if k2 = k then some v else lookupKey rest k

/-- Dict assignment `d[k] = v` on an (ordered) dict: update in place when the
key is present — keeping its position, as `OrderedDict` does — and append
otherwise. -/
def odInsert {α : Type} (l : List (String × α)) (k : String) (v : α) : List (String × α) :=
  match l with
  | [] => [(k, v)]
  | (k2, v2) :: rest => if k2 = k then (k2, v) :: rest else (k2, v2) :: odInsert rest k v

/-- Simultaneous substitution of values for variables, `expr.subs(bindings)`. -/
def SymExpr.subs (e : SymExpr) (bindings : List (String × ℚ)) : SymExpr :=
  match e with
  | .num q => .num q
  | .var s =>
    match lookupKey bindings s with
    | some q => .num q
    | none => .var s
  | .add a b => .add (a.subs bindings) (b.subs bindings)
  | .sub a b => .sub (a.subs bindings) (b.subs bindings)
  | .mul a b => .mul (a.subs bindings) (b.subs bindings)
  | .div a b => .div (a.subs bindings) (b.subs bindings)
  | .pow a b => .pow (a.subs bindings) (b.subs bindings)
  | .neg a => .neg (a.subs bindings)
  | .sin a => .sin (a.subs bindings)
  | .exp a => .exp (a.subs bindings)

/-- `expr.is_number`: true exactly when the expression has no free symbols. -/
def SymExpr.isNumber (e : SymExpr) : Bool := e.freeVars.isEmpty

/-- Stand-in for the numeric backend's `sin`.  Spec §6 treats the numeric
backend as an external opaque capability; no claim depends on this value. -/
def backendSin (_ : ℚ) : ℚ := 0

/-- Stand-in for the numeric backend's `exp`; see `backendSin`. -/
def backendExp (_ : ℚ) : ℚ := 1

/-- Stand-in for the numeric backend's power.  Integer exponents (the only
ones the built-in shapes use) are exact; other exponents are opaque. -/
def backendPow (a b : ℚ) : ℚ := if b.den = 1 then a ^ b.num else 0

/-- Numeric value of a closed expression: models `float(expr)` on a sympy
expression with `is_number` true (variables never occur on that path). -/
def evalClosed : SymExpr → ℚ
  | .num q => q
  | .var _ => 0
  | .add a b => evalClosed a + evalClosed b
  | .sub a b => evalClosed a - evalClosed b
  | .mul a b => evalClosed a * evalClosed b
  | .div a b => evalClosed a / evalClosed b
  | .pow a b => backendPow (evalClosed a) (evalClosed b)
  | .neg a => -evalClosed a
  | .sin a => backendSin (evalClosed a)
  | .exp a => backendExp (evalClosed a)

/-- One sample of `sympy.lambdify([x], expr, "numpy")` applied at `xv`: a free
symbol other than `x` is an undefined name in the generated lambda and raises
`NameError`; `numpy` division by zero yields a non-finite value, represented
by `ℚ`'s total division (no exception, and no claim constrains the value). -/
def lambdifyEval (e : SymExpr) (xv : ℚ) : Except String ℚ :=
  match e with
  | .num q => .ok q
  | .var s => if s = "x" then .ok xv else .error ("NameError: name " ++ s ++ " is not defined")
  | .add a b =>
    match lambdifyEval a xv, lambdifyEval b xv with
    | .ok va, .ok vb => .ok (va + vb)
    | .error err, _ => .error err
    | _, .error err => .error err
  | .sub a b =>
    match lambdifyEval a xv, lambdifyEval b xv with
    | .ok va, .ok vb => .ok (va - vb)
    | .error err, _ => .error err
    | _, .error err => .error err
  | .mul a b =>
    match lambdifyEval a xv, lambdifyEval b xv with
    | .ok va, .ok vb => .ok (va * vb)
    | .error err, _ => .error err
    | _, .error err => .error err
  | .div a b =>
    match lambdifyEval a xv, lambdifyEval b xv with
    | .ok va, .ok vb => .ok (va / vb)
    | .error err, _ => .error err
    | _, .error err => .error err
  | .pow a b =>
    match lambdifyEval a xv, lambdifyEval b xv with
    | .ok va, .ok vb => .ok (backendPow va vb)
    | .error err, _ => .error err
    | _, .error err => .error err
  | .neg a =>
    match lambdifyEval a xv with
    | .ok va => .ok (-va)
    | .error err => .error err
  | .sin a =>
    match lambdifyEval a xv with
    | .ok va => .ok (backendSin va)
    | .error err => .error err
  | .exp a =>
    match lambdifyEval a xv with
    | .ok va => .ok (backendExp va)
    | .error err => .error err

/-- Left-to-right effectful map: Python list iteration where each element may
raise, the first exception propagating. -/
def mapExcept {α β : Type} (f : α → Except String β) : List α → Except String (List β)
  | [] => .ok []
  | a :: as =>
    match f a with
    | .error e => .error e
    | .ok b =>
      match mapExcept f as with
      | .error e => .error e
      | .ok bs => .ok (b :: bs)

/-- `Function.Parameter`: a named numeric parameter of a waveform function
(`pulseparameters.py`, class `Function.Parameter`). -/
structure FnParameter where
  name : String
  symbol : String
  value : ℚ
  default : ℚ
deriving DecidableEq, Repr

/-- `Function.Parameter.__init__(name, symbol, value)`: `default` starts out
equal to `value`. -/
def FnParameter.init (name symbol : String) (value : ℚ) : FnParameter :=
  { name := name, symbol := symbol, value := value, default := value }

/-- Serialized form of a `Function.Parameter` (`Parameter.to_json`). -/
structure ParamJson where
  name : String
  symbol : String
  value : ℚ
  default : ℚ
deriving DecidableEq, Repr

/-- `Parameter.to_json`. -/
def FnParameter.to_json (p : FnParameter) : ParamJson :=
  { name := p.name, symbol := p.symbol, value := p.value, default := p.default }

/-- `Parameter.from_json`: `cls(name, symbol, value)` followed by overwriting
`default` from the payload. -/
def FnParameter.from_json (d : ParamJson) : FnParameter :=
  { name := d.name, symbol := d.symbol, value := d.value, default := d.default }

/-- The waveform `Function` of `pulseparameters.py`: a symbolic expression
with named parameters, a sampling resolution and a normalized domain.
The concrete Python subclass (`RectFunction`, …) determines only the initial
field values and the display pixmap; structurally every instance is this
record, with `name` doubling as the serialization type tag. -/
structure Function where
  name : String
  parameters : List FnParameter
  expr : SymExpr
  resolution : ℚ
  start_x : ℚ
  end_x : ℚ
deriving DecidableEq, Repr

/-- `Decimal(1 / 30.72e6)` from `Function.__init__`: the exact value of the
IEEE-754 double nearest to 1/30720000 (the Python expression divides floats
before converting, so the stored decimal is this dyadic rational). -/
def baseResolution : ℚ := 4919131752989214 / 151115727451828646838272

/-- The exact value of the IEEE-754 double `numpy.pi`. -/
def floatPi : ℚ := 884279719003555 / 281474976710656

/-- `RectFunction()`: name "Rectangular", expression `1`, default domain
`[-1, 1]` and resolution from `Function.__init__`. -/
def RectFunction : Function :=
  { name := "Rectangular", parameters := [], expr := .num 1,
    resolution := baseResolution, start_x := -1, end_x := 1 }

/-- `SincFunction()`: expression `sin(x * l)/(x * l)`, one parameter
`Scale Factor` with symbol `l` and value 2, domain `[-pi, pi]`. -/
def SincFunction : Function :=
  { name := "Sinc",
    parameters := [FnParameter.init "Scale Factor" "l" 2],
    expr := .div (.sin (.mul (.var "x") (.var "l"))) (.mul (.var "x") (.var "l")),
    resolution := baseResolution, start_x := -floatPi, end_x := floatPi }

/-- `GaussianFunction()`: expression `exp(-0.5 * ((x - mu) / sigma)**2)`,
parameters `Mean` (`mu`, 0) and `Standard Deviation` (`sigma`, 1), domain
`[-pi, pi]`. -/
def GaussianFunction : Function :=
  { name := "Gaussian",
    parameters := [FnParameter.init "Mean" "mu" 0, FnParameter.init "Standard Deviation" "sigma" 1],
    expr := .exp (.mul (.num (-(1/2)))
      (.pow (.div (.sub (.var "x") (.var "mu")) (.var "sigma")) (.num 2))),
    resolution := baseResolution, start_x := -floatPi, end_x := floatPi }

/-- `CustomFunction()`: expression `2 * x**2 + 3 * x + 1`, default domain. -/
def CustomFunction : Function :=
  { name := "Custom",
    parameters := [],
    expr := .add (.add (.mul (.num 2) (.pow (.var "x") (.num 2))) (.mul (.num 3) (.var "x"))) (.num 1),
    resolution := baseResolution, start_x := -1, end_x := 1 }

/-- The names of `Function.__subclasses__()` in definition order: the open
set of shapes resolvable by `Function.from_json`. -/
def knownFunctionNames : List String := ["Rectangular", "Sinc", "Gaussian", "Custom"]

/-- `[function() for function in Function.__subclasses__()]`: fresh default
instances of every shape, in definition order. -/
def defaultFunctions : List Function :=
  [RectFunction, SincFunction, GaussianFunction, CustomFunction]

/-- The `found_variables` dict of `Function.evaluate`: parameter symbols
mapped to current values, later parameters overwriting earlier ones with the
same symbol (dict assignment in iteration order). -/
def foundVariables (ps : List FnParameter) : List (String × ℚ) :=
  ps.foldl (fun acc p => odInsert acc p.symbol p.value) []

/-- Python `int()` on a real number: truncation toward zero. -/
def pyInt (q : ℚ) : Int := if 0 ≤ q then q.floor else q.ceil

/-- `numpy.linspace(a, b, n)` for non-negative `n`: `n` evenly spaced points
from `a` to `b` inclusive.  For `n = 1` the formula collapses to `[a]`
(`(b - a) * 0 / 0 = 0` under `ℚ`'s total division, matching numpy). -/
def linspace (a b : ℚ) (n : Nat) : List ℚ :=
  (List.range n).map (fun (i : ℕ) => a + (b - a) * (i : ℚ) / ((n : ℚ) - 1))

/-- `Function.evaluate(pulse_length, resolution=None)`:
`n = int(pulse_length / resolution)` samples of the expression over
`linspace(start_x, end_x, n)` after substituting every parameter's current
value; a constant result short-circuits to `np.full(t.shape, float(c))`.
`Decimal` division by zero and `numpy.linspace` with negative `n` raise. -/
def Function.evaluate (f : Function) (pulse_length : ℚ) (res? : Option ℚ) :
    Except String (List ℚ) :=
  let resolution := res?.getD f.resolution
  if resolution = 0 then .error "decimal.DivisionByZero: x / 0"
  else
    let n := pyInt (pulse_length / resolution)
    if n < 0 then .error "ValueError: Number of samples must be non-negative"
    else
      let t := linspace f.start_x f.end_x n.toNat
      let final_expr := f.expr.subs (foundVariables f.parameters)
      if final_expr.isNumber then .ok (List.replicate t.length (evalClosed final_expr))
      else mapExcept (lambdifyEval final_expr) t

/-- Serialized form of a `Function` (`Function.to_json`).  The Python dict
stores the expression as `str(self.expr)`; per the modelling conventions the
textual detour is the identity on `SymExpr`. -/
structure FunctionJson where
  name : String
  parameters : List ParamJson
  expression : SymExpr
  resolution : ℚ
  start_x : ℚ
  end_x : ℚ
deriving DecidableEq, Repr

/-- `Function.to_json`. -/
def Function.to_json (f : Function) : FunctionJson :=
  { name := f.name, parameters := f.parameters.map FnParameter.to_json,
    expression := f.expr, resolution := f.resolution,
    start_x := f.start_x, end_x := f.end_x }

/-- `Function.from_json`: scan `Function.__subclasses__()` for one whose
`name` matches `data["name"]` and construct it; every field of the fresh
instance is then overwritten from the payload, so the result does not depend
on which subclass matched — only on whether one did.  When none matches,
`cls` is still the abstract `Function`, and `cls()` raises `TypeError`
because `Function.__init__` requires an `expr` argument. -/
def Function.from_json (data : FunctionJson) : Except String Function :=
  if data.name ∈ knownFunctionNames then
    .ok { name := data.name,
          parameters := data.parameters.map FnParameter.from_json,
          expr := data.expression,
          resolution := data.resolution,
          start_x := data.start_x,
          end_x := data.end_x }
  else
    .error "TypeError: Function.__init__ missing 1 required positional argument: expr"

/-- A JSON-like value as stored in an option's `value` slot: the payloads the
option hierarchy actually produces (a bool, a number, a string, or a
serialized waveform function). -/
inductive JValue where
  | jbool (b : Bool)
  | jnum (q : ℚ)
  | jstr (s : String)
  | jfun (f : FunctionJson)
deriving DecidableEq, Repr

/-- Numeric value of a digit character. -/
def digitVal (c : Char) : Nat := c.toNat - '0'.toNat

/-- Value of a digit string read in base 10. -/
def digitsVal (cs : List Char) : Nat := cs.foldl (fun n c => 10 * n + digitVal c) 0

/-- Split a character list into its leading run of digits and the rest. -/
def spanDigits (cs : List Char) : List Char × List Char :=
  match cs with
  | [] => ([], [])
  | c :: rest =>
    if c.isDigit then
      let (ds, r) := spanDigits rest
      (c :: ds, r)
    else ([], c :: rest)

/-- Mantissa of a float literal: digits with an optional fractional part; at
least one digit must be present on one side of the point. -/
def parseMantissa (cs : List Char) : Except String (ℚ × List Char) :=
  let (ip, r1) := spanDigits cs
  match r1 with
  | '.' :: r2 =>
    let (fp, r3) := spanDigits r2
    if ip.isEmpty && fp.isEmpty then .error "ValueError: could not convert string to float"
    else .ok ((digitsVal ip : ℚ) + (digitsVal fp : ℚ) / (10 : ℚ) ^ fp.length, r3)
  | _ =>
    if ip.isEmpty then .error "ValueError: could not convert string to float"
    else .ok ((digitsVal ip : ℚ), r1)

/-- Optional exponent part `e[+|-]digits` of a float literal. -/
def parseExponent (cs : List Char) : Except String (Int × List Char) :=
  match cs with
  | 'e' :: rest =>
    match rest with
    | '+' :: r1 =>
      let (ds, r2) := spanDigits r1
      if ds.isEmpty then .error "ValueError: could not convert string to float"
      else .ok ((digitsVal ds : Int), r2)
    | '-' :: r1 =>
      let (ds, r2) := spanDigits r1
      if ds.isEmpty then .error "ValueError: could not convert string to float"
      else .ok (-(digitsVal ds : Int), r2)
    | r1 =>
      let (ds, r2) := spanDigits r1
      if ds.isEmpty then .error "ValueError: could not convert string to float"
      else .ok ((digitsVal ds : Int), r2)
  | 'E' :: rest =>
    match rest with
    | '+' :: r1 =>
      let (ds, r2) := spanDigits r1
      if ds.isEmpty then .error "ValueError: could not convert string to float"
      else .ok ((digitsVal ds : Int), r2)
    | '-' :: r1 =>
      let (ds, r2) := spanDigits r1
      if ds.isEmpty then .error "ValueError: could not convert string to float"
      else .ok (-(digitsVal ds : Int), r2)
    | r1 =>
      let (ds, r2) := spanDigits r1
      if ds.isEmpty then .error "ValueError: could not convert string to float"
      else .ok ((digitsVal ds : Int), r2)
  | _ => .ok (0, cs)

/-- Strip leading and trailing whitespace from a character list (the
whitespace stripping `float()` performs on its string argument). -/
def stripSpace (cs : List Char) : List Char :=
  ((cs.dropWhile Char.isWhitespace).reverse.dropWhile Char.isWhitespace).reverse

/-- CPython `float()` on a string: optional surrounding whitespace, optional
sign, decimal mantissa, optional exponent, nothing else.  The non-finite
literals `inf`/`nan` and underscore digit separators fall outside the exact
rational value model and are not produced by this engine; they parse as
errors here and no claim exercises them. -/
def parseFloatString (s : String) : Except String ℚ :=
  match stripSpace s.toList with
  | '+' :: cs => parseFloatTail 1 cs
  | '-' :: cs => parseFloatTail (-1) cs
  | cs => parseFloatTail 1 cs
where
  parseFloatTail (sgn : ℚ) (cs : List Char) : Except String ℚ :=
    match parseMantissa cs with
    | .error e => .error e
    | .ok (m, r1) =>
      match parseExponent r1 with
      | .error e => .error e
      | .ok (ex, r2) =>
        if r2.isEmpty then .ok (sgn * m * (10 : ℚ) ^ ex)
        else .error "ValueError: could not convert string to float"

/-- Python `float()` on the dynamically typed values an option can hold. -/
def pyFloat : JValue → Except String ℚ
  | .jnum q => .ok q
  | .jbool b => .ok (if b then 1 else 0)
  | .jstr s => parseFloatString s
  | .jfun _ => .error "TypeError: float() argument must be a string or a real number"

/-- The `start_x` property setter: `float(start_x)`, re-raised as
`SyntaxError` when the conversion fails.  No other validation is performed —
in particular no relation to `end_x` is checked. -/
def Function.set_start_x (f : Function) (v : JValue) : Except String Function :=
  match pyFloat v with
  | .ok q => .ok { f with start_x := q }
  | .error _ => .error "SyntaxError: Could not convert to a float"

/-- The `end_x` property setter; see `Function.set_start_x`. -/
def Function.set_end_x (f : Function) (v : JValue) : Except String Function :=
  match pyFloat v with
  | .ok q => .ok { f with end_x := q }
  | .error _ => .error "SyntaxError: Could not convert to a float"

/-- Serialized form of an option (`Option.to_json`): `{name, value, type}`. -/
structure OptionJson where
  name : String
  value : JValue
  type : String
deriving DecidableEq, Repr

/-- The `Option` hierarchy of `pulseparameters.py` (named `POption` because
`Option` is taken by Lean's core library).  `base` is the abstract `Option`
class itself — instantiable in Python, and actually produced by
`Option.from_json` when no subclass `TYPE` matches.  The `function` variant
carries the selected waveform (`value`) and the selectable `choices`
(`functions`).  Values are the dynamically typed contents of the Python
`value` attribute. -/
inductive POption where
  | base (name : String) (value : JValue)
  | boolean (name : String) (value : JValue)
  | numeric (name : String) (value : JValue)
  | function (name : String) (value : Function) (functions : List Function)
deriving DecidableEq, Repr

/-- The `name` attribute shared by the whole option hierarchy. -/
def POption.name : POption → String
  | .base n _ => n
  | .boolean n _ => n
  | .numeric n _ => n
  | .function n _ _ => n

/-- `Option.to_json` / `FunctionOption.to_json`: `{name, value, TYPE}`, the
function variant serializing its selected waveform in the `value` slot.  The
abstract base class has no `TYPE` attribute, so `to_json` on it raises. -/
def POption.to_json : POption → Except String OptionJson
  | .base _ _ => .error "AttributeError: Option object has no attribute TYPE"
  | .boolean n v => .ok { name := n, value := v, type := "Boolean" }
  | .numeric n v => .ok { name := n, value := v, type := "Numeric" }
  | .function n v _ => .ok { name := n, value := .jfun (Function.to_json v), type := "Function" }

/-- `FunctionOption.__init__(name, functions)`: the initial `value` is
`functions[0]`, which raises `IndexError` when `functions` is empty. -/
def FunctionOption.init (name : String) (functions : List Function) : Except String POption :=
  match functions with
  | [] => .error "IndexError: list index out of range"
  | f :: _ => .ok (.function name f functions)

/-- `FunctionOption.get_function_by_name(name)`: return the first choice with
that name, raising `ValueError` naming the missing function otherwise. -/
def FunctionOption.get_function_by_name (functions : List Function) (name : String) :
    Except String Function :=
  match functions with
  | [] => .error ("Function with name " ++ name ++ " not found")
  | f :: rest => if f.name = name then .ok f else get_function_by_name rest name

/-- `FunctionOption.from_json(data)`: build the choices as fresh default
instances of every `Function` subclass, construct
`FunctionOption(data["name"], functions)` (safe — four subclasses exist), and
then replace `value` by `Function.from_json(data["value"])`, whose failure
propagates.  A non-mapping `value` payload fails inside `Function.from_json`
when it is indexed. -/
def FunctionOption.from_json (data : OptionJson) : Except String POption :=
  match data.value with
  | .jfun fj =>
    match Function.from_json fj with
    | .ok v => .ok (.function data.name v defaultFunctions)
    | .error e => .error e
  | _ => .error "TypeError: value payload of a Function option is not a mapping"

/-- `Option.from_json(data)`: scan `Option.__subclasses__()` (`Boolean`,
`Numeric`, `Function` in definition order) for one whose `TYPE` equals
`data["type"]`.  A subclass that does not override `from_json` is built as
`cls(data["name"], data["value"])` with the payload value stored unconverted;
`FunctionOption` overrides `from_json` and is dispatched to it.  When no
`TYPE` matches, `cls` is still the abstract `Option`, whose two-argument
constructor happily produces a base `Option` object — there is no error
path for an unknown type tag. -/
def POption.from_json (data : OptionJson) : Except String POption :=
  if data.type = "Boolean" then .ok (.boolean data.name data.value)
  else if data.type = "Numeric" then .ok (.numeric data.name data.value)
  else if data.type = "Function" then FunctionOption.from_json data
  else .ok (.base data.name data.value)

/-- `NumericOption.set_value(value)`: `self.value = float(value)`.  The
coercion runs before the assignment, so a failing coercion raises and leaves
the option's stored value untouched (in this functional model: an `.error`
result produces no updated option). -/
def NumericOption.set_value (o : POption) (v : JValue) : Except String POption :=
  match o with
  | .numeric n _ =>
    match pyFloat v with
    | .ok q => .ok (.numeric n (.jnum q))
    | .error e => .error e
  | _ => .error "TypeError: set_value bound to a non-numeric option"

/-- `BaseSpectrometerModel.PulseParameter`: a name and an ordered list of
options (`base_spectrometer_model.py`).  The concrete subclasses (`TXPulse`,
`RXReadout`, `Gate`) differ only in the option list their constructors
install. -/
structure PulseParameter where
  name : String
  options : List POption
deriving DecidableEq, Repr

/-- `PulseSequence.Event` (`pulsesequence.py`): a name, a duration and an
ordered mapping from parameter name to `PulseParameter`. -/
structure Event where
  name : String
  duration : ℚ
  parameters : List (String × PulseParameter)
deriving DecidableEq, Repr

/-- `Event.add_parameter(parameter)` calls `self.parameters.append(...)`, but
`Event.__init__` made `parameters` an `OrderedDict`, which has no `append`
method: the call raises `AttributeError` for every argument, unconditionally.
-/
def Event.add_parameter (_e : Event) (_parameter : PulseParameter) : Except String Event :=
  .error "AttributeError: OrderedDict object has no attribute append"

/-- `Event.on_duration_changed(duration)`: logs and assigns
`self.duration = duration`.  No validation of any kind is performed. -/
def Event.on_duration_changed (e : Event) (duration : ℚ) : Event :=
  { e with duration := duration }

/-- The pulse-parameter registry (`pulse_parameter_options`): a dict from
parameter name to a constructor taking the parameter's name, owned by the
active spectrometer model. -/
abbrev Registry : Type := List (String × (String → PulseParameter))

/-- Serialized form of one parameter entry of an event:
`{"name": ..., "value": [option_json, ...]}`. -/
structure ParamEntryJson where
  name : String
  value : List OptionJson
deriving DecidableEq, Repr

/-- Serialized form of an event:
`{"name": ..., "duration": ..., "parameters": [...]}`. -/
structure EventJson where
  name : String
  duration : ℚ
  parameters : List ParamEntryJson
deriving DecidableEq, Repr

/-- Serialized form of a pulse sequence: `{"name": ..., "events": [...]}`. -/
structure SeqJson where
  name : String
  events : List EventJson
deriving DecidableEq, Repr

/-- The inner loop of `Event.load_event` for one serialized parameter entry:
scan every registry key (the loop has no `break`); on a key equal to the
entry's name, construct a fresh instance of the registered class, discard its
default options, deserialize the stored options in order, and store the
instance under that key with dict assignment.  Keys that never match leave
the accumulator untouched — the documented silent skip. -/
def scanRegistry (reg : Registry) (entry : ParamEntryJson)
    (acc : List (String × PulseParameter)) :
    Except String (List (String × PulseParameter)) :=
  match reg with
  | [] => .ok acc
  | (k, ctor) :: rest =>
    if k = entry.name then
      match mapExcept POption.from_json entry.value with
      | .error e => .error e
      | .ok opts => scanRegistry rest entry (odInsert acc k { ctor entry.name with options := opts })
    else scanRegistry rest entry acc

/-- The outer loop of `Event.load_event` over the serialized parameter
entries. -/
def loadParameters (reg : Registry) (entries : List ParamEntryJson)
    (acc : List (String × PulseParameter)) :
    Except String (List (String × PulseParameter)) :=
  match entries with
  | [] => .ok acc
  | e :: rest =>
    match scanRegistry reg e acc with
    | .error err => .error err
    | .ok acc2 => loadParameters reg rest acc2

/-- `PulseSequence.Event.load_event(event, pulse_parameter_options)`. -/
def Event.load_event (ev : EventJson) (reg : Registry) : Except String Event :=
  match loadParameters reg ev.parameters [] with
  | .error e => .error e
  | .ok ps => .ok { name := ev.name, duration := ev.duration, parameters := ps }

/-- `PulseSequence` (`pulsesequence.py`): a name and an ordered list of
events. -/
structure PulseSequence where
  name : String
  events : List Event
deriving DecidableEq, Repr

/-- One entry of the `parameters` list built by `PulseSequence.to_json`: the
parameter's key and its options serialized in order. -/
def paramEntryToJson (kv : String × PulseParameter) : Except String ParamEntryJson :=
  match mapExcept POption.to_json kv.2.options with
  | .error e => .error e
  | .ok ojs => .ok { name := kv.1, value := ojs }

/-- One entry of the `events` list built by `PulseSequence.to_json`. -/
def eventToJson (ev : Event) : Except String EventJson :=
  match mapExcept paramEntryToJson ev.parameters with
  | .error e => .error e
  | .ok entries => .ok { name := ev.name, duration := ev.duration, parameters := entries }

/-- `PulseSequence.to_json`. -/
def PulseSequence.to_json (s : PulseSequence) : Except String SeqJson :=
  match mapExcept eventToJson s.events with
  | .error e => .error e
  | .ok evs => .ok { name := s.name, events := evs }

/-- `PulseSequence.load_sequence(sequence, pulse_parameter_options)`: the
name, then every event through `load_event`, appended in source order. -/
def PulseSequence.load_sequence (seq : SeqJson) (reg : Registry) :
    Except String PulseSequence :=
  match mapExcept (fun ej => Event.load_event ej reg) seq.events with
  | .error e => .error e
  | .ok evs => .ok { name := seq.name, events := evs }

/-- Structural equality of options in the sense of the round-trip law: same
variant (type tag), same name, same value.  The `choices` list of a function
option is not serialized and therefore not compared. -/
def optStructEq : POption → POption → Prop
  | .base n v, .base n2 v2 => n = n2 ∧ v = v2
  | .boolean n v, .boolean n2 v2 => n = n2 ∧ v = v2
  | .numeric n v, .numeric n2 v2 => n = n2 ∧ v = v2
  | .function n v _, .function n2 v2 _ => n = n2 ∧ v = v2
  | _, _ => False

/-- Structural equality of one parameter slot: same key and pointwise
structurally equal options, in order. -/
def paramEntryStructEq (a b : String × PulseParameter) : Prop :=
  a.1 = b.1 ∧ List.Forall₂ optStructEq a.2.options b.2.options

/-- Structural equality of events: same name, same duration, same parameter
keys in the same order, with structurally equal options within each. -/
def eventStructEq (a b : Event) : Prop :=
  a.name = b.name ∧ a.duration = b.duration ∧
    List.Forall₂ paramEntryStructEq a.parameters b.parameters

/-- Structural equality of pulse sequences: same name and pointwise
structurally equal events in the same order. -/
def seqStructEq (a b : PulseSequence) : Prop :=
  a.name = b.name ∧ List.Forall₂ eventStructEq a.events b.events

/-- Representation invariant of an option reachable through the public API:
it is one of the three concrete variants, and a function option selects a
waveform carrying the name of a known shape (every reachable `Function`
is built by a shape constructor or by `from_json`, both of which guarantee a
known name). -/
def POption.wf : POption → Bool
  | .base _ _ => false
  | .boolean _ _ => true
  | .numeric _ _ => true
  | .function _ v _ => decide (v.name ∈ knownFunctionNames)

/-- Representation invariant of a pulse sequence: within each event the
parameter keys are pairwise distinct (they are the keys of an `OrderedDict`)
and every option satisfies `POption.wf`. -/
def PulseSequence.wf (s : PulseSequence) : Bool :=
  s.events.all (fun e =>
    decide (e.parameters.map Prod.fst).Nodup &&
      e.parameters.all (fun kv => kv.2.options.all POption.wf))


/-- Concrete test fixture: the spec §8 end-to-end scenario sequence — a
"spin-echo" sequence with a TX-style parameter (amplitude 1, Sinc shape) on
event "excite" and an RX-style boolean parameter on event "readout". -/
def sampleSequence : PulseSequence :=
  { name := "spin-echo",
    events := [
      { name := "excite", duration := 1 / 100000,
        parameters := [("TX", { name := "TX", options := [
          .numeric "Relative TX Amplitude" (.jnum 1),
          .function "TX Pulse Shape" SincFunction defaultFunctions] })] },
      { name := "readout", duration := 5 / 100000,
        parameters := [("RX", { name := "RX", options := [
          .boolean "RX" (.jbool true)] })] }] }

/-- Concrete test fixture: a registry covering the parameter names "TX" and
"RX" of `sampleSequence`. -/
def sampleRegistry : Registry :=
  [("TX", fun n => ({ name := n, options := [] } : PulseParameter)),
   ("RX", fun n => ({ name := n, options := [] } : PulseParameter))]

/-! ## Shared lemmas about the dictionary and iteration helpers -/

theorem lookupKey_odInsert {α : Type} (l : List (String × α)) (k : String) (v : α) (s : String) :
    lookupKey (odInsert l k v) s = if k = s then some v else lookupKey l s := by
  induction l with
  | nil => simp only [odInsert, lookupKey]
  | cons kv rest ih =>
    obtain ⟨k2, v2⟩ := kv
    by_cases hk : k2 = k
    · subst hk
      simp only [odInsert, if_pos rfl, lookupKey]
      by_cases hs : k2 = s
      · subst hs; simp
      · simp [hs]
    · simp only [odInsert, if_neg hk, lookupKey, ih]
      by_cases hs : k2 = s
      · subst hs
        have hks : ¬(k = k2) := fun hh => hk hh.symm
        simp [hks]
      · simp [hs]
theorem mem_keys_odInsert {α : Type} (l : List (String × α)) (k : String) (v : α) (s : String)
    (h : s ∈ (odInsert l k v).map Prod.fst) : s ∈ l.map Prod.fst ∨ s = k := by
  induction l with
  | nil =>
    simp [odInsert] at h
    exact Or.inr h
  | cons kv rest ih =>
    obtain ⟨k2, v2⟩ := kv
    by_cases hk : k2 = k
    · subst hk
      simp only [odInsert, if_true] at h
      simp only [List.map_cons, List.mem_cons] at h ⊢
      tauto
    · simp only [odInsert, if_neg hk] at h
      simp only [List.map_cons, List.mem_cons] at h ⊢
      rcases h with h | h
      · exact Or.inl (Or.inl h)
      · rcases ih h with h2 | h2
        · exact Or.inl (Or.inr h2)
        · exact Or.inr h2
theorem mem_keys_of_mem_keys_odInsert {α : Type} (l : List (String × α)) (k : String) (v : α)
    (s : String) (h : s ∈ l.map Prod.fst) : s ∈ (odInsert l k v).map Prod.fst := by
  induction l with
  | nil => simp at h
  | cons kv rest ih =>
    obtain ⟨k2, v2⟩ := kv
    by_cases hk : k2 = k
    · subst hk
      simp only [odInsert, if_true]
      simp only [List.map_cons, List.mem_cons] at h ⊢
      tauto
    · simp only [odInsert, if_neg hk]
      simp only [List.map_cons, List.mem_cons] at h ⊢
      rcases h with h | h
      · exact Or.inl h
      · exact Or.inr (ih h)
theorem odInsert_of_not_mem {α : Type} (l : List (String × α)) (k : String) (v : α)
    (h : k ∉ l.map Prod.fst) : odInsert l k v = l ++ [(k, v)] := by
  induction l with
  | nil => simp [odInsert]
  | cons kv rest ih =>
    obtain ⟨k2, v2⟩ := kv
    simp only [List.map_cons, List.mem_cons] at h
    push_neg at h
    have hk : ¬(k2 = k) := fun hh => h.1 hh.symm
    simp [odInsert, hk, ih h.2]
theorem mapExcept_total {α β : Type} (f : α → Except String β) (l : List α)
    (h : ∀ a ∈ l, ∃ b, f a = .ok b) :
    ∃ bs, mapExcept f l = .ok bs ∧ List.Forall₂ (fun a b => f a = .ok b) l bs := by
  induction l with
  | nil => exact ⟨[], rfl, List.Forall₂.nil⟩
  | cons a rest ih =>
    obtain ⟨b, hb⟩ := h a (by simp)
    obtain ⟨bs, hbs, hf⟩ := ih (fun x hx => h x (by simp [hx]))
    exact ⟨b :: bs, by simp [mapExcept, hb, hbs], List.Forall₂.cons hb hf⟩

theorem mapExcept_cons_ok {α β : Type} (f : α → Except String β) (a : α) (l : List α)
    (b : β) (bs : List β) (ha : f a = .ok b) (hl : mapExcept f l = .ok bs) :
    mapExcept f (a :: l) = .ok (b :: bs) := by
  simp [mapExcept, ha, hl]

/-! ## Claim theorems -/

/-- Claim C5, counterexample:  The claim says `on_duration_changed` rejects
non-positive values and keeps the old duration; on the code, an event with
duration 5 receives `-1` and its duration becomes `-1`. -/
theorem on_duration_changed_cex :
    (Event.on_duration_changed { name := "e", duration := 5, parameters := [] } (-1)).duration
        = -1 ∧ (-1 : ℚ) ≤ 0 :=
  ⟨rfl, by norm_num⟩

/-- Claim C5 (amended):  `Event.on_duration_changed(value)` performs no
validation at all: it replaces `duration` with the given value — positive or
not — and leaves the event's name and parameters unchanged; there is no
error path. -/
theorem on_duration_changed_assigns (e : Event) (v : ℚ) :
    (Event.on_duration_changed e v).duration = v ∧
      (Event.on_duration_changed e v).name = e.name ∧
      (Event.on_duration_changed e v).parameters = e.parameters :=
  ⟨rfl, rfl, rfl⟩

/-- Claim C6:  `NumericOption.set_value` coerces through `float()`: the string
`"3.5"` stores the number `3.5`; the string `"abc"` raises `ValueError`, and
since the coercion runs before the assignment the prior stored value is left
unchanged (the error result carries no updated option). -/
theorem numeric_option_set_value_coercion (n : String) (old : JValue) :
    NumericOption.set_value (.numeric n old) (.jstr "3.5") = .ok (.numeric n (.jnum (7 / 2))) ∧
      NumericOption.set_value (.numeric n old) (.jstr "abc") =
        .error "ValueError: could not convert string to float" := by
  have hval : (1 * ((3 : ℚ) + (5 : ℚ) / 10 ^ 1) * 10 ^ (0 : ℤ)) = 7 / 2 := by norm_num
  constructor
  · have hrun : NumericOption.set_value (.numeric n old) (.jstr "3.5") =
        .ok (.numeric n (.jnum (1 * ((3 : ℚ) + (5 : ℚ) / 10 ^ 1) * 10 ^ (0 : ℤ)))) := rfl
    rw [hrun, hval]
  · rfl

/-- Claim C8 (code bug):  Every call of `Event.add_parameter` raises
`AttributeError`: `Event.__init__` makes `parameters` an `OrderedDict`, but
`add_parameter` calls the list method `append` on it.  Evaluated here at the
spec §8 scenario input (event "excite" of duration `10e-6`, a TX-style
parameter). -/
theorem add_parameter_always_raises :
    Event.add_parameter { name := "excite", duration := 1 / 100000, parameters := [] }
        { name := "TX", options := [] } =
      .error "AttributeError: OrderedDict object has no attribute append" := rfl

/-- Claim C9, counterexample:  Configuring `start_x == end_x` is not rejected:
on `RectFunction` (constructed with domain `[-1, 1]`), setting `start_x` to
`1` succeeds, producing a Function whose `start_x` equals its `end_x`. -/
theorem degenerate_domain_accepted_cex :
    Function.set_start_x RectFunction (.jnum 1) = .ok { RectFunction with start_x := 1 } ∧
      ({ RectFunction with start_x := 1 } : Function).start_x
        = ({ RectFunction with start_x := 1 } : Function).end_x :=
  ⟨rfl, rfl⟩

/-- Claim C9 (amended):  The `start_x`/`end_x` property setters validate only
float-convertibility of the assigned value and never compare the two bounds,
so a degenerate domain `start_x = end_x` is accepted; the built-in shape
constructors do establish `start_x < end_x` (`[-1, 1]` or `[-pi, pi]`). -/
theorem domain_setters_no_validation (f : Function) (v : JValue) (q : ℚ)
    (h : pyFloat v = .ok q) :
    Function.set_start_x f v = .ok { f with start_x := q } ∧
      Function.set_end_x f v = .ok { f with end_x := q } ∧
      RectFunction.start_x < RectFunction.end_x ∧
      SincFunction.start_x < SincFunction.end_x ∧
      GaussianFunction.start_x < GaussianFunction.end_x ∧
      CustomFunction.start_x < CustomFunction.end_x := by
  refine ⟨?_, ?_, ?_, ?_, ?_, ?_⟩
  · simp [Function.set_start_x, h]
  · simp [Function.set_end_x, h]
  · norm_num [RectFunction]
  · norm_num [SincFunction, floatPi]
  · norm_num [GaussianFunction, floatPi]
  · norm_num [CustomFunction]

/-- Witness for `domain_setters_no_validation` at a concrete input. -/
theorem domain_setters_no_validation_witness :
    pyFloat (.jnum 1) = .ok 1 ∧
      (Function.set_start_x RectFunction (.jnum 1) = .ok { RectFunction with start_x := 1 } ∧
        Function.set_end_x RectFunction (.jnum 1) = .ok { RectFunction with end_x := 1 } ∧
        RectFunction.start_x < RectFunction.end_x ∧
        SincFunction.start_x < SincFunction.end_x ∧
        GaussianFunction.start_x < GaussianFunction.end_x ∧
        CustomFunction.start_x < CustomFunction.end_x) :=
  ⟨rfl, domain_setters_no_validation RectFunction (.jnum 1) 1 rfl⟩

/-- Claim C10:  `FunctionOption.__init__(name, functions)` selects the first
choice as the initial value, and an empty choices list raises `IndexError`
instead of producing an option. -/
theorem function_option_first_choice (n : String) (f : Function) (fs : List Function) :
    FunctionOption.init n (f :: fs) = .ok (.function n f (f :: fs)) ∧
      FunctionOption.init n [] = .error "IndexError: list index out of range" :=
  ⟨rfl, rfl⟩

/-- Claim C4, counterexample:  An unregistered Option type tag does not make
`Option.from_json` fail: with tag `"Mystery"` it silently constructs a base
`Option` holding the stored name and value. -/
theorem unknown_option_tag_cex :
    POption.from_json { name := "a", value := .jbool true, type := "Mystery" } =
      .ok (.base "a" (.jbool true)) := rfl

/-- Claim C4 (amended):  Deserialization of an unregistered type tag is
asymmetric: `Function.from_json` with a name matching no Function subclass
fails (the abstract class cannot be instantiated), but `Option.from_json`
with a type tag matching no Option subclass does not fail — it silently
constructs a base `Option` with the stored name and value. -/
theorem unregistered_tag_dispatch (fd : FunctionJson) (od : OptionJson)
    (hf : fd.name ∉ knownFunctionNames)
    (ho : od.type ∉ (["Boolean", "Numeric", "Function"] : List String)) :
    Function.from_json fd =
        .error "TypeError: Function.__init__ missing 1 required positional argument: expr" ∧
      POption.from_json od = .ok (.base od.name od.value) := by
  simp only [List.mem_cons, List.not_mem_nil, or_false, not_or] at ho
  refine ⟨?_, ?_⟩
  · simp [Function.from_json, hf]
  · simp [POption.from_json, ho.1, ho.2.1, ho.2.2]

/-- Witness for `unregistered_tag_dispatch` at concrete inputs. -/
theorem unregistered_tag_dispatch_witness :
    ({ name := "Bogus", parameters := [], expression := .num 1, resolution := 1,
        start_x := 0, end_x := 1 } : FunctionJson).name ∉ knownFunctionNames ∧
      ({ name := "a", value := .jbool true, type := "Mystery" } : OptionJson).type
          ∉ (["Boolean", "Numeric", "Function"] : List String) ∧
      (Function.from_json
            { name := "Bogus", parameters := [], expression := .num 1, resolution := 1,
              start_x := 0, end_x := 1 } =
          .error "TypeError: Function.__init__ missing 1 required positional argument: expr" ∧
        POption.from_json { name := "a", value := .jbool true, type := "Mystery" } =
          .ok (.base "a" (.jbool true))) :=
  ⟨by decide, by decide,
    unregistered_tag_dispatch _ _ (by decide) (by decide)⟩

/-- Claim C7:  After `FunctionOption.from_json` the option is a function option
whose selected value carries the name of one of the reconstructed choices
(reselection is by name: the choices are fresh default instances, and the
deserialized value's name is necessarily one of the known shape names); and
`get_function_by_name` returns the first choice bearing the requested name,
raising a not-found error that names the missing choice otherwise. -/
theorem function_option_selection_invariant :
    (∀ data o, FunctionOption.from_json data = .ok o →
        ∃ n v fs, o = POption.function n v fs ∧ ∃ f ∈ fs, f.name = v.name) ∧
      (∀ fs n f, FunctionOption.get_function_by_name fs n = .ok f → f.name = n ∧ f ∈ fs) ∧
      (∀ fs n, (∀ f ∈ fs, f.name ≠ n) →
        FunctionOption.get_function_by_name fs n =
          .error ("Function with name " ++ n ++ " not found")) := by
  refine ⟨?_, ?_, ?_⟩
  · intro data o h
    unfold FunctionOption.from_json at h
    cases hdv : data.value with
    | jfun fj =>
      simp only [hdv] at h
      cases hfj : Function.from_json fj with
      | ok v =>
        simp only [hfj] at h
        injection h with h
        refine ⟨data.name, v, defaultFunctions, h.symm, ?_⟩
        unfold Function.from_json at hfj
        by_cases hmem : fj.name ∈ knownFunctionNames
        · rw [if_pos hmem] at hfj
          injection hfj with hfj
          have hname : v.name = fj.name := by rw [← hfj]
          rw [hname]
          simp only [knownFunctionNames, List.mem_cons, List.not_mem_nil, or_false] at hmem
          rcases hmem with h4 | h4 | h4 | h4
          · exact ⟨RectFunction, by simp [defaultFunctions], by rw [h4]; rfl⟩
          · exact ⟨SincFunction, by simp [defaultFunctions], by rw [h4]; rfl⟩
          · exact ⟨GaussianFunction, by simp [defaultFunctions], by rw [h4]; rfl⟩
          · exact ⟨CustomFunction, by simp [defaultFunctions], by rw [h4]; rfl⟩
        · rw [if_neg hmem] at hfj
          exact absurd hfj (by simp)
      | error e => simp [hfj] at h
    | jbool b => simp [hdv] at h
    | jnum q => simp [hdv] at h
    | jstr st => simp [hdv] at h
  · intro fs
    induction fs with
    | nil => intro n f h; exact absurd h (by simp [FunctionOption.get_function_by_name])
    | cons f2 rest ih =>
      intro n f h
      unfold FunctionOption.get_function_by_name at h
      by_cases hn : f2.name = n
      · rw [if_pos hn] at h
        injection h with h
        subst h
        exact ⟨hn, by simp⟩
      · rw [if_neg hn] at h
        obtain ⟨h1, h2⟩ := ih n f h
        exact ⟨h1, by simp [h2]⟩
  · intro fs
    induction fs with
    | nil => intro n _; rfl
    | cons f2 rest ih =>
      intro n hall
      unfold FunctionOption.get_function_by_name
      rw [if_neg (hall f2 (by simp))]
      exact ih n (fun f hf => hall f (by simp [hf]))

/-- Witness for `function_option_selection_invariant` at concrete inputs:
deserialization of a serialized Sinc selection, a successful one-element
lookup, and a failing lookup on an empty choices list. -/
theorem function_option_selection_invariant_witness :
    (∃ n v fs, (POption.function "Shape" SincFunction defaultFunctions) = POption.function n v fs ∧
        ∃ f ∈ fs, f.name = v.name) ∧
      (RectFunction.name = "Rectangular" ∧ RectFunction ∈ [RectFunction]) ∧
      FunctionOption.get_function_by_name [] "Sine" =
        .error ("Function with name " ++ "Sine" ++ " not found") := by
  obtain ⟨h1, h2, h3⟩ := function_option_selection_invariant
  refine ⟨?_, ?_, ?_⟩
  · exact h1 { name := "Shape", value := .jfun (Function.to_json SincFunction), type := "Function" }
      (POption.function "Shape" SincFunction defaultFunctions) rfl
  · exact h2 [RectFunction] "Rectangular" RectFunction rfl
  · exact h3 [] "Sine" (by simp)

theorem linspace_length (a b : ℚ) (n : Nat) : (linspace a b n).length = n := by
  unfold linspace
  rw [List.length_map, List.length_range]

theorem lookupKey_foldl_odInsert (ps : List FnParameter) (acc : List (String × ℚ)) (s : String)
    (h : s ∈ ps.map FnParameter.symbol ∨ (lookupKey acc s).isSome = true) :
    (lookupKey (ps.foldl (fun a p => odInsert a p.symbol p.value) acc) s).isSome = true := by
  induction ps generalizing acc with
  | nil => simpa using h
  | cons p rest ih =>
    simp only [List.foldl_cons]
    apply ih
    rcases h with h | h
    · simp only [List.map_cons, List.mem_cons] at h
      rcases h with h | h
      · right
        rw [lookupKey_odInsert]
        simp [h.symm]
      · left; exact h
    · right
      rw [lookupKey_odInsert]
      by_cases hk : p.symbol = s <;> simp [hk, h]

theorem foundVariables_symbol_isSome (ps : List FnParameter) (s : String)
    (h : s ∈ ps.map FnParameter.symbol) :
    (lookupKey (foundVariables ps) s).isSome = true :=
  lookupKey_foldl_odInsert ps [] s (Or.inl h)

theorem mem_freeVars_subs (e : SymExpr) (bs : List (String × ℚ)) (s : String)
    (h : s ∈ (e.subs bs).freeVars) : s ∈ e.freeVars ∧ lookupKey bs s = none := by
  induction e with
  | num q => simp [SymExpr.subs, SymExpr.freeVars] at h
  | var s2 =>
    simp only [SymExpr.subs] at h
    cases hl : lookupKey bs s2 with
    | some q => simp only [hl, SymExpr.freeVars] at h; simp at h
    | none =>
      simp only [hl, SymExpr.freeVars, List.mem_singleton] at h
      subst h
      exact ⟨by simp [SymExpr.freeVars], hl⟩
  | add a b iha ihb =>
    simp only [SymExpr.subs, SymExpr.freeVars, List.mem_append] at h ⊢
    rcases h with h | h
    · obtain ⟨h1, h2⟩ := iha h; exact ⟨Or.inl h1, h2⟩
    · obtain ⟨h1, h2⟩ := ihb h; exact ⟨Or.inr h1, h2⟩
  | sub a b iha ihb =>
    simp only [SymExpr.subs, SymExpr.freeVars, List.mem_append] at h ⊢
    rcases h with h | h
    · obtain ⟨h1, h2⟩ := iha h; exact ⟨Or.inl h1, h2⟩
    · obtain ⟨h1, h2⟩ := ihb h; exact ⟨Or.inr h1, h2⟩
  | mul a b iha ihb =>
    simp only [SymExpr.subs, SymExpr.freeVars, List.mem_append] at h ⊢
    rcases h with h | h
    · obtain ⟨h1, h2⟩ := iha h; exact ⟨Or.inl h1, h2⟩
    · obtain ⟨h1, h2⟩ := ihb h; exact ⟨Or.inr h1, h2⟩
  | div a b iha ihb =>
    simp only [SymExpr.subs, SymExpr.freeVars, List.mem_append] at h ⊢
    rcases h with h | h
    · obtain ⟨h1, h2⟩ := iha h; exact ⟨Or.inl h1, h2⟩
    · obtain ⟨h1, h2⟩ := ihb h; exact ⟨Or.inr h1, h2⟩
  | pow a b iha ihb =>
    simp only [SymExpr.subs, SymExpr.freeVars, List.mem_append] at h ⊢
    rcases h with h | h
    · obtain ⟨h1, h2⟩ := iha h; exact ⟨Or.inl h1, h2⟩
    · obtain ⟨h1, h2⟩ := ihb h; exact ⟨Or.inr h1, h2⟩
  | neg a iha =>
    simp only [SymExpr.subs, SymExpr.freeVars] at h ⊢
    exact iha h
  | sin a iha =>
    simp only [SymExpr.subs, SymExpr.freeVars] at h ⊢
    exact iha h
  | exp a iha =>
    simp only [SymExpr.subs, SymExpr.freeVars] at h ⊢
    exact iha h

theorem lambdifyEval_total (e : SymExpr) (hf : ∀ s ∈ e.freeVars, s = "x") (xv : ℚ) :
    ∃ v, lambdifyEval e xv = .ok v := by
  induction e with
  | num q => exact ⟨q, rfl⟩
  | var s =>
    have hx := hf s (by simp [SymExpr.freeVars])
    exact ⟨xv, by simp [lambdifyEval, hx]⟩
  | add a b iha ihb =>
    obtain ⟨va, hva⟩ := iha (fun s hs =>
      hf s (by simp only [SymExpr.freeVars, List.mem_append]; exact Or.inl hs))
    obtain ⟨vb, hvb⟩ := ihb (fun s hs =>
      hf s (by simp only [SymExpr.freeVars, List.mem_append]; exact Or.inr hs))
    exact ⟨va + vb, by simp [lambdifyEval, hva, hvb]⟩
  | sub a b iha ihb =>
    obtain ⟨va, hva⟩ := iha (fun s hs =>
      hf s (by simp only [SymExpr.freeVars, List.mem_append]; exact Or.inl hs))
    obtain ⟨vb, hvb⟩ := ihb (fun s hs =>
      hf s (by simp only [SymExpr.freeVars, List.mem_append]; exact Or.inr hs))
    exact ⟨va - vb, by simp [lambdifyEval, hva, hvb]⟩
  | mul a b iha ihb =>
    obtain ⟨va, hva⟩ := iha (fun s hs =>
      hf s (by simp only [SymExpr.freeVars, List.mem_append]; exact Or.inl hs))
    obtain ⟨vb, hvb⟩ := ihb (fun s hs =>
      hf s (by simp only [SymExpr.freeVars, List.mem_append]; exact Or.inr hs))
    exact ⟨va * vb, by simp [lambdifyEval, hva, hvb]⟩
  | div a b iha ihb =>
    obtain ⟨va, hva⟩ := iha (fun s hs =>
      hf s (by simp only [SymExpr.freeVars, List.mem_append]; exact Or.inl hs))
    obtain ⟨vb, hvb⟩ := ihb (fun s hs =>
      hf s (by simp only [SymExpr.freeVars, List.mem_append]; exact Or.inr hs))
    exact ⟨va / vb, by simp [lambdifyEval, hva, hvb]⟩
  | pow a b iha ihb =>
    obtain ⟨va, hva⟩ := iha (fun s hs =>
      hf s (by simp only [SymExpr.freeVars, List.mem_append]; exact Or.inl hs))
    obtain ⟨vb, hvb⟩ := ihb (fun s hs =>
      hf s (by simp only [SymExpr.freeVars, List.mem_append]; exact Or.inr hs))
    exact ⟨backendPow va vb, by simp [lambdifyEval, hva, hvb]⟩
  | neg a iha =>
    obtain ⟨va, hva⟩ := iha (fun s hs => hf s (by simpa [SymExpr.freeVars] using hs))
    exact ⟨-va, by simp [lambdifyEval, hva]⟩
  | sin a iha =>
    obtain ⟨va, hva⟩ := iha (fun s hs => hf s (by simpa [SymExpr.freeVars] using hs))
    exact ⟨backendSin va, by simp [lambdifyEval, hva]⟩
  | exp a iha =>
    obtain ⟨va, hva⟩ := iha (fun s hs => hf s (by simpa [SymExpr.freeVars] using hs))
    exact ⟨backendExp va, by simp [lambdifyEval, hva]⟩

/-- Claim C3:  For every waveform Function whose expression mentions only the
sampling variable `x` and its own parameters' symbols (true of all four
built-in shapes), and all positive `duration` and `resolution`,
`evaluate(duration, resolution)` succeeds with exactly
`floor(duration / resolution)` samples; and whenever the expression after
substituting every bound parameter's value is the numeric constant `c`,
every returned sample equals `c`. -/
theorem evaluate_sample_count (f : Function) (d r : ℚ) (hd : 0 < d) (hr : 0 < r)
    (hfree : ∀ s ∈ f.expr.freeVars, s = "x" ∨ s ∈ f.parameters.map FnParameter.symbol) :
    ∃ ys, Function.evaluate f d (some r) = .ok ys ∧
      ys.length = ((d / r).floor).toNat ∧
      ∀ c, f.expr.subs (foundVariables f.parameters) = SymExpr.num c →
        ys = List.replicate ys.length c := by
  have hr0 : ¬(r = 0) := ne_of_gt hr
  have hdr : 0 ≤ d / r := le_of_lt (div_pos hd hr)
  have hpy : pyInt (d / r) = (d / r).floor := by simp [pyInt, hdr]
  have hfloor : ¬((d / r).floor < 0) := not_lt.mpr (Int.floor_nonneg.mpr hdr)
  unfold Function.evaluate
  simp only [Option.getD_some, if_neg hr0, hpy, if_neg hfloor]
  set final := f.expr.subs (foundVariables f.parameters) with hfinal
  by_cases hnum : final.isNumber
  · rw [if_pos hnum]
    refine ⟨_, rfl, by simp [linspace_length], ?_⟩
    intro c hc
    rw [hc]
    simp [evalClosed]
  · rw [if_neg hnum]
    have hxonly : ∀ s ∈ final.freeVars, s = "x" := by
      intro s hs
      obtain ⟨h1, h2⟩ := mem_freeVars_subs f.expr (foundVariables f.parameters) s hs
      rcases hfree s h1 with h3 | h3
      · exact h3
      · have h4 := foundVariables_symbol_isSome f.parameters s h3
        rw [h2] at h4
        simp at h4
    obtain ⟨ys, hys, hall⟩ := mapExcept_total (lambdifyEval final)
      (linspace f.start_x f.end_x (d / r).floor.toNat)
      (fun a _ => lambdifyEval_total final hxonly a)
    refine ⟨ys, hys, ?_, ?_⟩
    · rw [← hall.length_eq, linspace_length]
    · intro c hc
      exfalso
      rw [hc] at hnum
      simp [SymExpr.isNumber, SymExpr.freeVars] at hnum

/-- Witness for `evaluate_sample_count` at the Sinc shape with
`duration = 1/1000` and `resolution = 1/2000` (two samples). -/
theorem evaluate_sample_count_witness :
    (0 : ℚ) < 1 / 1000 ∧ (0 : ℚ) < 1 / 2000 ∧
      (∀ s ∈ SymExpr.freeVars SincFunction.expr,
        s = "x" ∨ s ∈ SincFunction.parameters.map FnParameter.symbol) ∧
      (∃ ys, Function.evaluate SincFunction (1 / 1000) (some (1 / 2000)) = .ok ys ∧
        ys.length = (((1 : ℚ) / 1000 / (1 / 2000)).floor).toNat ∧
        ∀ c, SymExpr.subs SincFunction.expr (foundVariables SincFunction.parameters)
              = SymExpr.num c →
          ys = List.replicate ys.length c) :=
  ⟨by norm_num, by norm_num, by decide,
    evaluate_sample_count SincFunction (1 / 1000) (1 / 2000) (by norm_num) (by norm_num)
      (by decide)⟩

theorem mem_keys_odInsert_self {α : Type} (l : List (String × α)) (k : String) (v : α) :
    k ∈ (odInsert l k v).map Prod.fst := by
  induction l with
  | nil => simp [odInsert]
  | cons kv rest ih =>
    obtain ⟨k2, v2⟩ := kv
    by_cases hk : k2 = k
    · subst hk
      simp [odInsert]
    · simp only [odInsert, if_neg hk, List.map_cons, List.mem_cons]
      exact Or.inr ih

theorem lookupKey_mem_keys {α : Type} (l : List (String × α)) (k : String)
    (h : k ∈ l.map Prod.fst) : ∃ v, lookupKey l k = some v := by
  induction l with
  | nil => simp at h
  | cons kv rest ih =>
    obtain ⟨k2, v2⟩ := kv
    by_cases hk : k2 = k
    · exact ⟨v2, by simp [lookupKey, hk]⟩
    · simp only [List.map_cons, List.mem_cons] at h
      rcases h with h | h
      · exact absurd h.symm hk
      · obtain ⟨v, hv⟩ := ih h
        exact ⟨v, by simp [lookupKey, hk, hv]⟩

theorem scanRegistry_skip (reg : Registry) (entry : ParamEntryJson)
    (acc : List (String × PulseParameter)) (h : entry.name ∉ reg.map Prod.fst) :
    scanRegistry reg entry acc = .ok acc := by
  induction reg generalizing acc with
  | nil => rfl
  | cons kv rest ih =>
    obtain ⟨k, ctor⟩ := kv
    simp only [List.map_cons, List.mem_cons] at h
    push_neg at h
    unfold scanRegistry
    rw [if_neg (fun hh => h.1 hh.symm)]
    exact ih acc h.2

theorem scanRegistry_total (reg : Registry) (entry : ParamEntryJson)
    (acc : List (String × PulseParameter))
    (hp : entry.name ∈ List.map Prod.fst reg →
      ∃ opts, mapExcept POption.from_json entry.value = .ok opts) :
    ∃ res, scanRegistry reg entry acc = .ok res ∧
      (∀ s, s ∈ List.map Prod.fst res →
        s ∈ List.map Prod.fst acc ∨ s ∈ List.map Prod.fst reg) ∧
      (∀ s, s ∈ List.map Prod.fst acc → s ∈ List.map Prod.fst res) ∧
      (entry.name ∈ List.map Prod.fst reg → entry.name ∈ List.map Prod.fst res) := by
  induction reg generalizing acc with
  | nil => exact ⟨acc, rfl, fun s hs => Or.inl hs, fun s hs => hs, by simp⟩
  | cons kv rest ih =>
    obtain ⟨k, ctor⟩ := kv
    by_cases hk : k = entry.name
    · obtain ⟨opts, hopts⟩ := hp (by simp [hk])
      obtain ⟨res, hres, hsub, hmono, _⟩ :=
        ih (odInsert acc k { ctor entry.name with options := opts }) (fun _ => ⟨opts, hopts⟩)
      refine ⟨res, ?_, ?_, ?_, ?_⟩
      · unfold scanRegistry
        rw [if_pos hk, hopts]
        exact hres
      · intro s hs
        rcases hsub s hs with h2 | h2
        · rcases mem_keys_odInsert acc k _ s h2 with h3 | h3
          · exact Or.inl h3
          · exact Or.inr (by simp [h3])
        · exact Or.inr (by simp [h2])
      · intro s hs
        exact hmono s (mem_keys_of_mem_keys_odInsert acc k _ s hs)
      · intro _
        refine hmono entry.name ?_
        rw [← hk]
        exact mem_keys_odInsert_self acc k _
    · obtain ⟨res, hres, hsub, hmono, hpres⟩ :=
        ih acc (fun hmem => hp (by simp [hmem]))
      refine ⟨res, ?_, ?_, hmono, ?_⟩
      · unfold scanRegistry
        rw [if_neg hk]
        exact hres
      · intro s hs
        rcases hsub s hs with h2 | h2
        · exact Or.inl h2
        · exact Or.inr (by simp [h2])
      · intro hmem
        simp only [List.map_cons, List.mem_cons] at hmem
        rcases hmem with h2 | h2
        · exact absurd h2.symm hk
        · exact hpres h2

theorem loadParameters_total (reg : Registry) (entries : List ParamEntryJson)
    (acc : List (String × PulseParameter))
    (hp : ∀ entry ∈ entries, entry.name ∈ List.map Prod.fst reg →
      ∃ opts, mapExcept POption.from_json entry.value = .ok opts) :
    ∃ res, loadParameters reg entries acc = .ok res ∧
      (∀ s, s ∈ List.map Prod.fst res →
        s ∈ List.map Prod.fst acc ∨ s ∈ List.map Prod.fst reg) ∧
      (∀ s, s ∈ List.map Prod.fst acc → s ∈ List.map Prod.fst res) ∧
      (∀ entry ∈ entries, entry.name ∈ List.map Prod.fst reg →
        entry.name ∈ List.map Prod.fst res) := by
  induction entries generalizing acc with
  | nil => exact ⟨acc, rfl, fun s hs => Or.inl hs, fun s hs => hs, by simp⟩
  | cons e rest ih =>
    obtain ⟨res1, hres1, hsub1, hmono1, hpres1⟩ := scanRegistry_total reg e acc (hp e (by simp))
    obtain ⟨res, hres, hsub, hmono, hpres⟩ := ih res1 (fun en hen => hp en (by simp [hen]))
    refine ⟨res, ?_, ?_, ?_, ?_⟩
    · unfold loadParameters
      rw [hres1]
      exact hres
    · intro s hs
      rcases hsub s hs with h2 | h2
      · exact hsub1 s h2
      · exact Or.inr h2
    · intro s hs
      exact hmono s (hmono1 s hs)
    · intro en hen hmem
      rcases List.mem_cons.mp hen with he | he
      · subst he
        exact hmono en.name (hpres1 hmem)
      · exact hpres en he hmem

theorem load_event_total (ev : EventJson) (reg : Registry)
    (hp : ∀ entry ∈ ev.parameters, entry.name ∈ List.map Prod.fst reg →
      ∃ opts, mapExcept POption.from_json entry.value = .ok opts) :
    ∃ e, Event.load_event ev reg = .ok e ∧ e.name = ev.name ∧ e.duration = ev.duration ∧
      (∀ entry ∈ ev.parameters, entry.name ∉ List.map Prod.fst reg →
        entry.name ∉ List.map Prod.fst e.parameters) ∧
      (∀ entry ∈ ev.parameters, entry.name ∈ List.map Prod.fst reg →
        entry.name ∈ List.map Prod.fst e.parameters) := by
  obtain ⟨res, hres, hsub, _, hpres⟩ := loadParameters_total reg ev.parameters [] hp
  refine ⟨{ name := ev.name, duration := ev.duration, parameters := res }, ?_, rfl, rfl, ?_, ?_⟩
  · unfold Event.load_event
    rw [hres]
  · intro entry _ hmem hkeys
    rcases hsub entry.name hkeys with h2 | h2
    · simp at h2
    · exact hmem h2
  · exact hpres

/-- Claim C2:  Loading a serialized sequence with a registry missing some of
the parameter names succeeds with no exception: parameter entries whose name
is absent from the registry are silently skipped (the loaded event omits that
name), while every entry whose name the registry does cover — assuming its
stored options deserialize, which "load normally" presupposes — is loaded
and present, in every event. -/
theorem load_sequence_partial (seq : SeqJson) (reg : Registry)
    (hp : ∀ ej ∈ seq.events, ∀ entry ∈ ej.parameters, entry.name ∈ List.map Prod.fst reg →
      ∃ opts, mapExcept POption.from_json entry.value = .ok opts) :
    ∃ S, PulseSequence.load_sequence seq reg = .ok S ∧ S.name = seq.name ∧
      List.Forall₂ (fun ej e => Event.name e = ej.name ∧ Event.duration e = ej.duration ∧
        (∀ entry ∈ ej.parameters, entry.name ∉ List.map Prod.fst reg →
          entry.name ∉ List.map Prod.fst e.parameters) ∧
        (∀ entry ∈ ej.parameters, entry.name ∈ List.map Prod.fst reg →
          entry.name ∈ List.map Prod.fst e.parameters)) seq.events S.events := by
  suffices h : ∀ evjs : List EventJson,
      (∀ ej ∈ evjs, ∀ entry ∈ ej.parameters, entry.name ∈ List.map Prod.fst reg →
        ∃ opts, mapExcept POption.from_json entry.value = .ok opts) →
      ∃ evs, mapExcept (fun ej => Event.load_event ej reg) evjs = .ok evs ∧
        List.Forall₂ (fun ej e => Event.name e = ej.name ∧ Event.duration e = ej.duration ∧
          (∀ entry ∈ ej.parameters, entry.name ∉ List.map Prod.fst reg →
            entry.name ∉ List.map Prod.fst e.parameters) ∧
          (∀ entry ∈ ej.parameters, entry.name ∈ List.map Prod.fst reg →
            entry.name ∈ List.map Prod.fst e.parameters)) evjs evs by
    obtain ⟨evs, hevs, hfa⟩ := h seq.events hp
    exact ⟨{ name := seq.name, events := evs }, by simp only [PulseSequence.load_sequence, hevs],
      rfl, hfa⟩
  intro evjs
  induction evjs with
  | nil => exact fun _ => ⟨[], rfl, List.Forall₂.nil⟩
  | cons ej rest ih =>
    intro hp2
    obtain ⟨e, he, hn, hd, hmiss, hhit⟩ := load_event_total ej reg (hp2 ej (by simp))
    obtain ⟨evs, hevs, hfa⟩ := ih (fun x hx => hp2 x (by simp [hx]))
    exact ⟨e :: evs, mapExcept_cons_ok _ _ _ _ _ he hevs,
      List.Forall₂.cons ⟨hn, hd, hmiss, hhit⟩ hfa⟩

/-- Witness for `load_sequence_partial`: one event with entries "A" (absent
from the registry) and "B" (present, one Numeric option). -/
theorem load_sequence_partial_witness :
    (∀ ej ∈ ([{ name := "e", duration := 1, parameters := [
          { name := "A", value := [{ name := "o", value := .jbool true, type := "Boolean" }] },
          { name := "B", value := [{ name := "o2", value := .jnum 3, type := "Numeric" }] }] }] :
        List EventJson),
      ∀ entry ∈ ej.parameters,
        entry.name ∈ List.map Prod.fst
          ([("B", fun n => ({ name := n, options := [] } : PulseParameter))] : Registry) →
        ∃ opts, mapExcept POption.from_json entry.value = .ok opts) ∧
    ∃ S, PulseSequence.load_sequence
        { name := "s", events := [{ name := "e", duration := 1, parameters := [
            { name := "A", value := [{ name := "o", value := .jbool true, type := "Boolean" }] },
            { name := "B", value := [{ name := "o2", value := .jnum 3, type := "Numeric" }] }] }] }
        [("B", fun n => ({ name := n, options := [] } : PulseParameter))] = .ok S ∧
      S.name = "s" ∧
      List.Forall₂ (fun (ej : EventJson) (e : Event) =>
        Event.name e = ej.name ∧ Event.duration e = ej.duration ∧
        (∀ entry ∈ ej.parameters,
          entry.name ∉ List.map Prod.fst
            ([("B", fun n => ({ name := n, options := [] } : PulseParameter))] : Registry) →
          entry.name ∉ List.map Prod.fst e.parameters) ∧
        (∀ entry ∈ ej.parameters,
          entry.name ∈ List.map Prod.fst
            ([("B", fun n => ({ name := n, options := [] } : PulseParameter))] : Registry) →
          entry.name ∈ List.map Prod.fst e.parameters))
        [{ name := "e", duration := 1, parameters := [
            { name := "A", value := [{ name := "o", value := .jbool true, type := "Boolean" }] },
            { name := "B", value := [{ name := "o2", value := .jnum 3, type := "Numeric" }] }] }]
        S.events := by
  have hp : ∀ ej ∈ ([{ name := "e", duration := 1, parameters := [
        { name := "A", value := [{ name := "o", value := .jbool true, type := "Boolean" }] },
        { name := "B", value := [{ name := "o2", value := .jnum 3, type := "Numeric" }] }] }] :
      List EventJson),
      ∀ entry ∈ ej.parameters,
        entry.name ∈ List.map Prod.fst
          ([("B", fun n => ({ name := n, options := [] } : PulseParameter))] : Registry) →
        ∃ opts, mapExcept POption.from_json entry.value = .ok opts := by
    intro ej hej entry hentry hmem
    simp only [List.mem_singleton] at hej
    subst hej
    simp only [List.mem_cons, List.not_mem_nil, or_false] at hentry
    rcases hentry with rfl | rfl
    · exact absurd hmem (by decide)
    · exact ⟨[.numeric "o2" (.jnum 3)], rfl⟩
  exact ⟨hp, load_sequence_partial _ _ hp⟩

theorem fnparams_roundtrip (ps : List FnParameter) :
    List.map FnParameter.from_json (List.map FnParameter.to_json ps) = ps := by
  induction ps with
  | nil => rfl
  | cons p rest ih =>
    simp only [List.map_cons]
    rw [ih]
    rfl

theorem fnparam_from_to_json (p : FnParameter) :
    FnParameter.from_json (FnParameter.to_json p) = p := rfl

theorem function_from_to_json (v : Function) (h : v.name ∈ knownFunctionNames) :
    Function.from_json (Function.to_json v) = .ok v := by
  unfold Function.from_json Function.to_json
  rw [if_pos h]
  rw [fnparams_roundtrip]

theorem option_roundtrip (o : POption) (hwf : POption.wf o = true) :
    ∃ oj o2, POption.to_json o = .ok oj ∧ POption.from_json oj = .ok o2 ∧ optStructEq o2 o := by
  cases o with
  | base n v => simp [POption.wf] at hwf
  | boolean n v => exact ⟨_, .boolean n v, rfl, rfl, ⟨rfl, rfl⟩⟩
  | numeric n v => exact ⟨_, .numeric n v, rfl, rfl, ⟨rfl, rfl⟩⟩
  | function n v fs =>
    have hv : v.name ∈ knownFunctionNames := by
      simpa [POption.wf] using hwf
    refine ⟨_, .function n v defaultFunctions, rfl, ?_, ⟨rfl, rfl⟩⟩
    simp [POption.to_json, POption.from_json, FunctionOption.from_json,
      function_from_to_json v hv]

theorem options_roundtrip (opts : List POption) (hwf : ∀ o ∈ opts, POption.wf o = true) :
    ∃ ojs opts2, mapExcept POption.to_json opts = .ok ojs ∧
      mapExcept POption.from_json ojs = .ok opts2 ∧ List.Forall₂ optStructEq opts2 opts := by
  induction opts with
  | nil => exact ⟨[], [], rfl, rfl, List.Forall₂.nil⟩
  | cons o rest ih =>
    obtain ⟨oj, o2, hto, hfrom, heq⟩ := option_roundtrip o (hwf o (by simp))
    obtain ⟨ojs, opts2, htos, hfroms, heqs⟩ := ih (fun x hx => hwf x (by simp [hx]))
    exact ⟨oj :: ojs, o2 :: opts2, mapExcept_cons_ok _ _ _ _ _ hto htos,
      mapExcept_cons_ok _ _ _ _ _ hfrom hfroms, List.Forall₂.cons heq heqs⟩

theorem scanRegistry_found (reg : Registry) (entry : ParamEntryJson)
    (acc : List (String × PulseParameter)) (ctor : String → PulseParameter)
    (hnd : (List.map Prod.fst reg).Nodup)
    (hlook : lookupKey reg entry.name = some ctor)
    (opts2 : List POption)
    (hopts : mapExcept POption.from_json entry.value = .ok opts2) :
    scanRegistry reg entry acc =
      .ok (odInsert acc entry.name { ctor entry.name with options := opts2 }) := by
  induction reg generalizing acc with
  | nil => simp [lookupKey] at hlook
  | cons kv rest ih =>
    obtain ⟨k, c⟩ := kv
    simp only [List.map_cons, List.nodup_cons] at hnd
    by_cases hk : k = entry.name
    · subst hk
      simp only [lookupKey, if_true, eq_self_iff_true, Option.some.injEq] at hlook
      subst hlook
      unfold scanRegistry
      simp only [if_true, eq_self_iff_true, hopts]
      exact scanRegistry_skip rest entry _ hnd.1
    · unfold scanRegistry
      rw [if_neg hk]
      simp only [lookupKey, if_neg hk] at hlook
      exact ih acc hnd.2 hlook

theorem load_parameters_roundtrip (reg : Registry)
    (hreg : (List.map Prod.fst reg).Nodup)
    (params : List (String × PulseParameter)) (acc : List (String × PulseParameter))
    (hnd : (List.map Prod.fst params).Nodup)
    (hcov : ∀ kv ∈ params, kv.1 ∈ List.map Prod.fst reg)
    (hfresh : ∀ kv ∈ params, kv.1 ∉ List.map Prod.fst acc)
    (hwf : ∀ kv ∈ params, ∀ o ∈ kv.2.options, POption.wf o = true) :
    ∃ entries loaded, mapExcept paramEntryToJson params = .ok entries ∧
      loadParameters reg entries acc = .ok (acc ++ loaded) ∧
      List.Forall₂ paramEntryStructEq loaded params := by
  induction params generalizing acc with
  | nil => exact ⟨[], [], rfl, by simp [loadParameters], List.Forall₂.nil⟩
  | cons kv rest ih =>
    obtain ⟨k, p⟩ := kv
    simp only [List.map_cons, List.nodup_cons] at hnd
    obtain ⟨ojs, opts2, htos, hfroms, heqs⟩ :=
      options_roundtrip p.options (fun o ho => hwf (k, p) (by simp) o ho)
    have hentry : paramEntryToJson (k, p) = .ok { name := k, value := ojs } := by
      simp only [paramEntryToJson, htos]
    obtain ⟨ctor, hctor⟩ := lookupKey_mem_keys reg k (hcov (k, p) (by simp))
    have hscan : scanRegistry reg { name := k, value := ojs } acc =
        .ok (acc ++ [(k, { ctor k with options := opts2 })]) := by
      rw [scanRegistry_found reg _ acc ctor hreg hctor opts2 hfroms,
        odInsert_of_not_mem acc k _ (hfresh (k, p) (by simp))]
    obtain ⟨entries, loaded, htoE, hloadE, heqE⟩ :=
      ih (acc ++ [(k, { ctor k with options := opts2 })]) hnd.2
        (fun x hx => hcov x (by simp [hx]))
        (fun x hx => by
          simp only [List.map_append, List.map_cons, List.map_nil, List.mem_append,
            List.mem_singleton]
          push_neg
          refine ⟨hfresh x (by simp [hx]), ?_⟩
          intro hxk
          exact hnd.1 (hxk ▸ (List.mem_map.mpr ⟨x, hx, rfl⟩)))
        (fun x hx o ho => hwf x (by simp [hx]) o ho)
    refine ⟨{ name := k, value := ojs } :: entries,
      (k, { ctor k with options := opts2 }) :: loaded,
      mapExcept_cons_ok _ _ _ _ _ hentry htoE, ?_, ?_⟩
    · unfold loadParameters
      simp only [hscan, hloadE, List.append_assoc, List.singleton_append]
    · exact List.Forall₂.cons ⟨rfl, heqs⟩ heqE

theorem event_roundtrip (reg : Registry) (hreg : (List.map Prod.fst reg).Nodup) (ev : Event)
    (hnd : (List.map Prod.fst ev.parameters).Nodup)
    (hcov : ∀ kv ∈ ev.parameters, kv.1 ∈ List.map Prod.fst reg)
    (hwf : ∀ kv ∈ ev.parameters, ∀ o ∈ kv.2.options, POption.wf o = true) :
    ∃ evj e2, eventToJson ev = .ok evj ∧ Event.load_event evj reg = .ok e2 ∧
      eventStructEq e2 ev := by
  obtain ⟨entries, loaded, htoE, hloadE, heqE⟩ :=
    load_parameters_roundtrip reg hreg ev.parameters [] hnd hcov (by simp) hwf
  refine ⟨{ name := ev.name, duration := ev.duration, parameters := entries },
    { name := ev.name, duration := ev.duration, parameters := loaded }, ?_, ?_, ?_⟩
  · simp only [eventToJson, htoE]
  · simp only [Event.load_event, hloadE, List.nil_append]
  · exact ⟨rfl, rfl, heqE⟩

theorem wf_spec (S : PulseSequence) (h : S.wf = true) :
    ∀ e ∈ S.events, (List.map Prod.fst e.parameters).Nodup ∧
      ∀ kv ∈ e.parameters, ∀ o ∈ kv.2.options, POption.wf o = true := by
  intro e he
  simp only [PulseSequence.wf, List.all_eq_true] at h
  have h2 := h e he
  simp only [Bool.and_eq_true, decide_eq_true_eq, List.all_eq_true] at h2
  exact ⟨h2.1, fun kv hkv o ho => h2.2 kv hkv o ho⟩

/-- Claim C1:  The round-trip law: for every pulse sequence satisfying the data
model's representation invariants (`PulseSequence.wf`: distinct parameter
keys per event, no abstract base options, function options selecting known
shapes — all automatic for states reachable through the public API) and
every registry (a Python dict, hence distinct keys) covering every parameter
name used in the sequence, `load_sequence (to_json S) R` succeeds and is
structurally equal to `S`: same sequence name, same event order, names and
durations, same parameter keys in order, and same option names, values and
type tags within each parameter. -/
theorem pulse_sequence_roundtrip (S : PulseSequence) (reg : Registry)
    (hwf : S.wf = true)
    (hcov : ∀ e ∈ S.events, ∀ kv ∈ e.parameters, kv.1 ∈ List.map Prod.fst reg)
    (hreg : (List.map Prod.fst reg).Nodup) :
    ∃ j S2, PulseSequence.to_json S = .ok j ∧
      PulseSequence.load_sequence j reg = .ok S2 ∧ seqStructEq S2 S := by
  have hinv := wf_spec S hwf
  suffices h : ∀ evs : List Event,
      (∀ e ∈ evs, (List.map Prod.fst e.parameters).Nodup ∧
        ∀ kv ∈ e.parameters, ∀ o ∈ kv.2.options, POption.wf o = true) →
      (∀ e ∈ evs, ∀ kv ∈ e.parameters, kv.1 ∈ List.map Prod.fst reg) →
      ∃ evjs evs2, mapExcept eventToJson evs = .ok evjs ∧
        mapExcept (fun ej => Event.load_event ej reg) evjs = .ok evs2 ∧
        List.Forall₂ eventStructEq evs2 evs by
    obtain ⟨evjs, evs2, h1, h2, h3⟩ := h S.events hinv hcov
    exact ⟨{ name := S.name, events := evjs }, { name := S.name, events := evs2 },
      by simp only [PulseSequence.to_json, h1],
      by simp only [PulseSequence.load_sequence, h2], ⟨rfl, h3⟩⟩
  intro evs
  induction evs with
  | nil => exact fun _ _ => ⟨[], [], rfl, rfl, List.Forall₂.nil⟩
  | cons e rest ih =>
    intro hinv2 hcov2
    obtain ⟨hnd, hwf2⟩ := hinv2 e (by simp)
    obtain ⟨evj, e2, hto, hload, heq⟩ :=
      event_roundtrip reg hreg e hnd (hcov2 e (by simp)) hwf2
    obtain ⟨evjs, evs2, h1, h2, h3⟩ :=
      ih (fun x hx => hinv2 x (by simp [hx])) (fun x hx => hcov2 x (by simp [hx]))
    exact ⟨evj :: evjs, e2 :: evs2, mapExcept_cons_ok _ _ _ _ _ hto h1,
      mapExcept_cons_ok _ _ _ _ _ hload h2, List.Forall₂.cons heq h3⟩

/-- Witness for `pulse_sequence_roundtrip`: the spec §8 end-to-end scenario
(`sampleSequence` against `sampleRegistry`). -/
theorem pulse_sequence_roundtrip_witness :
    PulseSequence.wf sampleSequence = true ∧
      (∀ e ∈ sampleSequence.events, ∀ kv ∈ e.parameters,
        kv.1 ∈ List.map Prod.fst sampleRegistry) ∧
      (List.map Prod.fst sampleRegistry).Nodup ∧
      ∃ j S2, PulseSequence.to_json sampleSequence = .ok j ∧
        PulseSequence.load_sequence j sampleRegistry = .ok S2 ∧
        seqStructEq S2 sampleSequence :=
  ⟨by decide, by decide, by decide,
    pulse_sequence_roundtrip sampleSequence sampleRegistry (by decide) (by decide) (by decide)⟩
